import Mathlib

/-!
Verification of the ancestry-resolution and caching subsystem of
org-kubectl (`main.go`): `findChildProjects`, `listProjects`,
`openCache` and `saveCache`.

The Go code is embedded shallowly:

* The Go map `map[string][]string` (the ancestry cache) is an
  association list with last-write-wins insertion (`cacheInsert`).
* The remote service `crm.Projects.GetAncestry` is an oracle
  `getAncestry : String → Except String Chain`; the list it returns
  models the sequence of `ancestor.ResourceId.Id` values walked by the
  Go loop (main.go lines 144-153).
* The paginated `crm.Projects.List().Pages` call is a list of page
  results, each either a page of projects or a request failure.
* The errgroup in `findChildProjects` is modelled deterministically:
  the main loop reads the cache as it was when the loop started
  (goroutine writes land after the loop's reads), so cache hits are
  resolved inline first and the spawned tasks for the cache misses run
  afterwards, stopping at the first failed remote query, exactly as
  `grp.Wait` surfaces the first error.  The filtered list is shared and
  unordered in Go, so all claims below are stated up to membership and
  multiplicity, never order.
* To express "no remote query was issued for p", the model records the
  projects it queried in a `queried` field.
* The cache file is modelled at the JSON-value level: `saveCache`
  produces a JSON object (project id → array of ancestor-id strings),
  `openCache` decodes one; byte-level I/O and decode failures are the
  `absent`/`empty`/`garbage` file contents.
-/

namespace OrgKubectl

/-- An entry of a `ListProjectsResponse`; only `ProjectId` is read
(main.go line 181). -/
structure Project where
  projectId : String
deriving Repr, DecidableEq

/-- An ancestor chain: the ordered resource ids returned by `GetAncestry`. -/
abbrev Chain := List String

/-- The ancestry cache `map[string][]string`, as an association list. -/
abbrev Cache := List (String × Chain)

/-- Go map read `ancestorCache[p]` (main.go line 136). -/
def cacheLookup : Cache → String → Option Chain
  | [], _ => none
  | (k, v) :: rest, p => if k = p then some v else cacheLookup rest p

/-- Go map write `ancestorCache[p] = ancestors` (main.go line 155):
overwrite the existing binding if present, otherwise add one. -/
def cacheInsert : Cache → String → Chain → Cache
  | [], p, v => [(p, v)]
  | (k, w) :: rest, p, v =>
    if k = p then (p, v) :: rest else (k, w) :: cacheInsert rest p v

/-- `listProjects` (main.go lines 176-189): follow the pages in order,
collecting `p.ProjectId` from each, and fail on the first page request
that fails (later pages are never fetched). -/
def listProjectsAux : List String → List (Except String (List Project)) → Except String (List String)
  | acc, [] => .ok acc
  | _, .error e :: _ => .error ("could not list projects: " ++ e)
  | acc, .ok ps :: rest => listProjectsAux (acc ++ ps.map Project.projectId) rest

def listProjects (pages : List (Except String (List Project))) : Except String (List String) :=
  listProjectsAux [] pages

/-- The project ids contributed by one page (empty for a failed page). -/
def pageIds : Except String (List Project) → List String
  | .ok ps => ps.map Project.projectId
  | .error _ => []

/-- The ancestor walk shared by both branches of `findChildProjects`
(main.go lines 145-153 and 160-166): append `p` to the filtered list
once for every ancestor id equal to `parentResourceID`. -/
def appendMatches (parentResourceID p : String) : List String → List String → List String
  | [], filtered => filtered
  | a :: rest, filtered =>
    appendMatches parentResourceID p rest
      (if a = parentResourceID then filtered ++ [p] else filtered)

/-- The state threaded through `findChildProjects`: the shared filtered
list, the shared cache map, and (instrumentation) the projects for which
a remote `GetAncestry` call was issued. -/
structure ResolveState where
  filtered : List String
  cache : Cache
  queried : List String
deriving Repr, DecidableEq

/-- The main loop of `findChildProjects` restricted to cache hits
(main.go lines 159-167): each project found in the cache is matched
inline against its cached chain. -/
def inlineHits (parentResourceID : String) (cache0 : Cache) : List String → List String → List String
  | [], filtered => filtered
  | p :: rest, filtered =>
    match cacheLookup cache0 p with
    | some ancestors =>
      inlineHits parentResourceID cache0 rest (appendMatches parentResourceID p ancestors filtered)
    | none => inlineHits parentResourceID cache0 rest filtered

/-- The goroutines spawned for cache misses (main.go lines 139-158):
each queries `GetAncestry`, walks the response appending matches, and
writes the chain into the cache.  The first failure aborts the group
(`grp.Wait` returns it, main.go lines 170-172). -/
def runTasks (getAncestry : String → Except String Chain) (parentResourceID : String) :
    List String → ResolveState → Except String ResolveState
  | [], st => .ok st
  | p :: rest, st =>
    match getAncestry p with
    | .error e => .error ("could not get ancestry for " ++ p ++ ": " ++ e)
    | .ok ancestors =>
      runTasks getAncestry parentResourceID rest
        { filtered := appendMatches parentResourceID p ancestors st.filtered
          cache := cacheInsert st.cache p ancestors
          queried := st.queried ++ [p] }

/-- The resolution phase of `findChildProjects` (main.go lines 124-173),
after the project list is known. -/
def resolveAll (getAncestry : String → Except String Chain) (projects : List String)
    (parentResourceID : String) (cache0 : Cache) : Except String ResolveState :=
  let st1 : ResolveState := ⟨inlineHits parentResourceID cache0 projects [], cache0, []⟩
  let misses := projects.filter (fun p => (cacheLookup cache0 p).isNone)
  match runTasks getAncestry parentResourceID misses st1 with
  | .error e => .error ("could not get project ancestors: " ++ e)
  | .ok st => .ok st

/-- `findChildProjects` (main.go lines 118-174): list the projects, then
resolve each against the target ancestor id. -/
def findChildProjects (getAncestry : String → Except String Chain)
    (pages : List (Except String (List Project))) (parentResourceID : String)
    (cache0 : Cache) : Except String ResolveState :=
  match listProjects pages with
  | .error e => .error e
  | .ok projects => resolveAll getAncestry projects parentResourceID cache0

/-- The chain `GetAncestry` would return for `q` (empty on failure; only
used under a hypothesis that rules the failure out). -/
def fetchedChain (getAncestry : String → Except String Chain) (q : String) : Chain :=
  match getAncestry q with
  | .ok s => s
  | .error _ => []

/-- The chain `findChildProjects` effectively matches `q` against: the
cached one on a hit, the remote one on a miss. -/
def effChain (getAncestry : String → Except String Chain) (cache0 : Cache) (q : String) : Chain :=
  match cacheLookup cache0 q with
  | some c => c
  | none => fetchedChain getAncestry q

/-- The number of matches a single cache-hit project `q` contributes. -/
def hitCount (parentResourceID : String) (cache0 : Cache) (q : String) : Nat :=
  match cacheLookup cache0 q with
  | some c => c.count parentResourceID
  | none => 0

/-! ### Cache map lemmas -/

theorem cacheLookup_insert_self (c : Cache) (p : String) (v : Chain) :
    cacheLookup (cacheInsert c p v) p = some v := by
  induction c with
  | nil => simp [cacheInsert, cacheLookup]
  | cons kv rest ih =>
    obtain ⟨k, w⟩ := kv
    by_cases h : k = p <;> simp [cacheInsert, cacheLookup, h, ih]

theorem cacheLookup_insert_ne (c : Cache) (p q : String) (v : Chain) (h : q ≠ p) :
    cacheLookup (cacheInsert c p v) q = cacheLookup c q := by
  have hpq : p ≠ q := Ne.symm h
  induction c with
  | nil => simp [cacheInsert, cacheLookup, hpq]
  | cons kv rest ih =>
    obtain ⟨k, w⟩ := kv
    by_cases hk : k = p
    · subst hk
      simp [cacheInsert, cacheLookup, hpq]
    · by_cases hq : k = q
      · subst hq
        simp [cacheInsert, cacheLookup, hk]
      · simp [cacheInsert, cacheLookup, hk, hq, ih]

/-! ### Counting matches -/

theorem appendMatches_count (parentResourceID p q : String) (anc : List String) :
    ∀ filtered, (appendMatches parentResourceID p anc filtered).count q =
      filtered.count q + (if q = p then anc.count parentResourceID else 0) := by
  induction anc with
  | nil => intro filtered; simp [appendMatches]
  | cons a rest ih =>
    intro filtered
    simp only [appendMatches]
    rw [ih]
    by_cases hap : a = parentResourceID <;> by_cases hqp : q = p <;>
      simp [hap, hqp, List.count_cons, List.count_append, beq_iff_eq] <;> omega

theorem inlineHits_count (parentResourceID : String) (cache0 : Cache) (q : String)
    (ps : List String) :
    ∀ filtered, (inlineHits parentResourceID cache0 ps filtered).count q =
      filtered.count q + ps.count q * hitCount parentResourceID cache0 q := by
  induction ps with
  | nil => intro filtered; simp [inlineHits]
  | cons p rest ih =>
    intro filtered
    by_cases hqp : q = p
    · subst hqp
      cases hl : cacheLookup cache0 q with
      | none =>
        simp only [inlineHits, hl]
        rw [ih]
        have hc : hitCount parentResourceID cache0 q = 0 := by
          simp [hitCount, hl]
        simp [hc]
      | some c =>
        simp only [inlineHits, hl]
        rw [ih, appendMatches_count]
        have hc : hitCount parentResourceID cache0 q = c.count parentResourceID := by
          simp [hitCount, hl]
        simp [hc, List.count_cons]
        ring
    · cases hl : cacheLookup cache0 p with
      | none =>
        simp only [inlineHits, hl]
        rw [ih]
        simp [List.count_cons, beq_iff_eq, Ne.symm hqp]
      | some c =>
        simp only [inlineHits, hl]
        rw [ih, appendMatches_count]
        simp [hqp, List.count_cons, beq_iff_eq, Ne.symm hqp]

theorem runTasks_ok_count (getAncestry : String → Except String Chain)
    (parentResourceID q : String) (ms : List String) :
    ∀ st st', runTasks getAncestry parentResourceID ms st = .ok st' →
      st'.filtered.count q =
        st.filtered.count q + ms.count q * (fetchedChain getAncestry q).count parentResourceID := by
  induction ms with
  | nil =>
    intro st st' h
    simp only [runTasks] at h
    cases h
    simp
  | cons p rest ih =>
    intro st st' h
    simp only [runTasks] at h
    cases hg : getAncestry p with
    | error e => rw [hg] at h; cases h
    | ok s =>
      rw [hg] at h
      rw [ih _ _ h]
      simp only [appendMatches_count]
      by_cases hqp : q = p
      · subst hqp
        have hf : fetchedChain getAncestry q = s := by simp [fetchedChain, hg]
        simp [hf, List.count_cons]
        ring
      · simp [hqp, List.count_cons, Ne.symm hqp]

theorem runTasks_ok_cache_notmem (getAncestry : String → Except String Chain)
    (parentResourceID q : String) (ms : List String) :
    ∀ st st', runTasks getAncestry parentResourceID ms st = .ok st' → q ∉ ms →
      cacheLookup st'.cache q = cacheLookup st.cache q := by
  induction ms with
  | nil =>
    intro st st' h _
    simp only [runTasks] at h
    cases h
    rfl
  | cons p rest ih =>
    intro st st' h hq
    simp only [runTasks] at h
    cases hg : getAncestry p with
    | error e => rw [hg] at h; cases h
    | ok s =>
      rw [hg] at h
      have hqp : q ≠ p := fun hh => hq (hh ▸ List.mem_cons_self p rest)
      have hqr : q ∉ rest := fun hh => hq (List.mem_cons_of_mem _ hh)
      rw [ih _ _ h hqr]
      exact cacheLookup_insert_ne _ _ _ _ hqp

theorem runTasks_ok_cache_mem (getAncestry : String → Except String Chain)
    (parentResourceID q : String) (ms : List String) :
    ∀ st st', runTasks getAncestry parentResourceID ms st = .ok st' → q ∈ ms →
      ∃ s, getAncestry q = .ok s ∧ cacheLookup st'.cache q = some s := by
  induction ms with
  | nil => intro st st' _ hq; cases hq
  | cons p rest ih =>
    intro st st' h hq
    simp only [runTasks] at h
    cases hg : getAncestry p with
    | error e => rw [hg] at h; cases h
    | ok s =>
      rw [hg] at h
      by_cases hqr : q ∈ rest
      · exact ih _ _ h hqr
      · have hqp : q = p := by
          cases List.mem_cons.mp hq with
          | inl hh => exact hh
          | inr hh => exact absurd hh hqr
        subst hqp
        refine ⟨s, hg, ?_⟩
        rw [runTasks_ok_cache_notmem _ _ _ _ _ _ h hqr]
        exact cacheLookup_insert_self _ _ _

theorem runTasks_ok_queried (getAncestry : String → Except String Chain)
    (parentResourceID : String) (ms : List String) :
    ∀ st st', runTasks getAncestry parentResourceID ms st = .ok st' →
      st'.queried = st.queried ++ ms := by
  induction ms with
  | nil =>
    intro st st' h
    simp only [runTasks] at h
    cases h
    simp
  | cons p rest ih =>
    intro st st' h
    simp only [runTasks] at h
    cases hg : getAncestry p with
    | error e => rw [hg] at h; cases h
    | ok s =>
      rw [hg] at h
      rw [ih _ _ h]
      simp

theorem runTasks_error_of_mem (getAncestry : String → Except String Chain)
    (parentResourceID q e : String) (ms : List String) (hg : getAncestry q = .error e) :
    ∀ st, q ∈ ms →
      ∃ eMsg, runTasks getAncestry parentResourceID ms st = .error eMsg := by
  induction ms with
  | nil => intro st hq; cases hq
  | cons p rest ih =>
    intro st hq
    cases hgp : getAncestry p with
    | error e2 =>
      refine ⟨"could not get ancestry for " ++ p ++ ": " ++ e2, ?_⟩
      simp only [runTasks]
      rw [hgp]
    | ok s =>
      have hqr : q ∈ rest := by
        cases List.mem_cons.mp hq with
        | inl hh => rw [hh, hgp] at hg; cases hg
        | inr hh => exact hh
      obtain ⟨eMsg, hm⟩ := ih _ hqr
      refine ⟨eMsg, ?_⟩
      simp only [runTasks]
      rw [hgp]
      exact hm

theorem count_filter_miss (cache0 : Cache) (q : String) (projects : List String) :
    (projects.filter (fun p => (cacheLookup cache0 p).isNone)).count q =
      if cacheLookup cache0 q = none then projects.count q else 0 := by
  induction projects with
  | nil => simp
  | cons p rest ih =>
    by_cases hqp : q = p
    · subst hqp
      cases hl : cacheLookup cache0 q with
      | none => simp [List.filter_cons, hl, List.count_cons, ih]
      | some c => simp [List.filter_cons, hl, List.count_cons, ih]
    · cases hl : cacheLookup cache0 p with
      | none =>
        simp [List.filter_cons, hl, List.count_cons, beq_iff_eq, Ne.symm hqp, ih]
      | some c =>
        simp [List.filter_cons, hl, List.count_cons, beq_iff_eq, Ne.symm hqp, ih]

theorem mem_misses_iff (cache0 : Cache) (q : String) (projects : List String) :
    q ∈ projects.filter (fun p => (cacheLookup cache0 p).isNone) ↔
      q ∈ projects ∧ cacheLookup cache0 q = none := by
  simp [List.mem_filter, Option.isNone_iff_eq_none]

/-! ### Top-level lemmas about the resolution phase -/

theorem resolveAll_ok_count (getAncestry : String → Except String Chain)
    (projects : List String) (parentResourceID : String) (cache0 : Cache)
    (res : ResolveState) (q : String)
    (h : resolveAll getAncestry projects parentResourceID cache0 = .ok res) :
    res.filtered.count q =
      projects.count q * (effChain getAncestry cache0 q).count parentResourceID := by
  simp only [resolveAll] at h
  cases hrt : runTasks getAncestry parentResourceID
      (projects.filter (fun p => (cacheLookup cache0 p).isNone))
      ⟨inlineHits parentResourceID cache0 projects [], cache0, []⟩ with
  | error e => rw [hrt] at h; cases h
  | ok st =>
    rw [hrt] at h
    cases h
    rw [runTasks_ok_count _ _ _ _ _ _ hrt]
    simp only [inlineHits_count, count_filter_miss]
    cases hl : cacheLookup cache0 q with
    | none =>
      have hh : hitCount parentResourceID cache0 q = 0 := by simp [hitCount, hl]
      simp [hh, hl, effChain]
    | some c =>
      have hh : hitCount parentResourceID cache0 q = c.count parentResourceID := by
        simp [hitCount, hl]
      simp [hh, hl, effChain]

theorem resolveAll_ok_cache_hit (getAncestry : String → Except String Chain)
    (projects : List String) (parentResourceID p : String) (cache0 : Cache)
    (res : ResolveState) (C : Chain) (hl : cacheLookup cache0 p = some C)
    (h : resolveAll getAncestry projects parentResourceID cache0 = .ok res) :
    cacheLookup res.cache p = some C ∧ p ∉ res.queried := by
  simp only [resolveAll] at h
  cases hrt : runTasks getAncestry parentResourceID
      (projects.filter (fun pp => (cacheLookup cache0 pp).isNone))
      ⟨inlineHits parentResourceID cache0 projects [], cache0, []⟩ with
  | error e => rw [hrt] at h; cases h
  | ok st =>
    rw [hrt] at h
    cases h
    have hpm : p ∉ projects.filter (fun pp => (cacheLookup cache0 pp).isNone) := by
      rw [mem_misses_iff]
      rintro ⟨-, hc⟩
      rw [hl] at hc
      cases hc
    constructor
    · rw [runTasks_ok_cache_notmem _ _ _ _ _ _ hrt hpm]
      exact hl
    · rw [runTasks_ok_queried _ _ _ _ _ hrt]
      simpa using hpm

theorem resolveAll_ok_cache_miss (getAncestry : String → Except String Chain)
    (projects : List String) (parentResourceID p : String) (cache0 : Cache)
    (res : ResolveState) (hp : p ∈ projects) (hl : cacheLookup cache0 p = none)
    (h : resolveAll getAncestry projects parentResourceID cache0 = .ok res) :
    ∃ s, getAncestry p = .ok s ∧ cacheLookup res.cache p = some s := by
  simp only [resolveAll] at h
  cases hrt : runTasks getAncestry parentResourceID
      (projects.filter (fun pp => (cacheLookup cache0 pp).isNone))
      ⟨inlineHits parentResourceID cache0 projects [], cache0, []⟩ with
  | error e => rw [hrt] at h; cases h
  | ok st =>
    rw [hrt] at h
    cases h
    have hpm : p ∈ projects.filter (fun pp => (cacheLookup cache0 pp).isNone) :=
      (mem_misses_iff _ _ _).mpr ⟨hp, hl⟩
    exact runTasks_ok_cache_mem _ _ _ _ _ _ hrt hpm

theorem resolveAll_error (getAncestry : String → Except String Chain)
    (projects : List String) (parentResourceID p e : String) (cache0 : Cache)
    (hp : p ∈ projects) (hl : cacheLookup cache0 p = none)
    (hg : getAncestry p = .error e) :
    ∃ eMsg, resolveAll getAncestry projects parentResourceID cache0 = .error eMsg := by
  have hpm : p ∈ projects.filter (fun pp => (cacheLookup cache0 pp).isNone) :=
    (mem_misses_iff _ _ _).mpr ⟨hp, hl⟩
  obtain ⟨eMsg, hm⟩ := runTasks_error_of_mem getAncestry parentResourceID p e _ hg
    ⟨inlineHits parentResourceID cache0 projects [], cache0, []⟩ hpm
  refine ⟨"could not get project ancestors: " ++ eMsg, ?_⟩
  simp only [resolveAll]
  rw [hm]

theorem findChildProjects_eq (getAncestry : String → Except String Chain)
    (pages : List (Except String (List Project))) (parentResourceID : String)
    (cache0 : Cache) (projects : List String)
    (hlp : listProjects pages = .ok projects) :
    findChildProjects getAncestry pages parentResourceID cache0 =
      resolveAll getAncestry projects parentResourceID cache0 := by
  simp only [findChildProjects]
  rw [hlp]

/-! ### Pagination lemmas -/

theorem listProjectsAux_ok (pages : List (Except String (List Project)))
    (hok : ∀ pg ∈ pages, ∃ ps, pg = .ok ps) :
    ∀ acc, listProjectsAux acc pages = .ok (acc ++ (pages.map pageIds).flatten) := by
  induction pages with
  | nil => intro acc; simp [listProjectsAux]
  | cons pg rest ih =>
    intro acc
    obtain ⟨ps, hps⟩ := hok pg (List.mem_cons_self _ _)
    subst hps
    have hrest : ∀ pg ∈ rest, ∃ ps, pg = Except.ok ps :=
      fun pg hh => hok pg (List.mem_cons_of_mem _ hh)
    simp only [listProjectsAux]
    rw [ih hrest]
    simp [pageIds]

theorem listProjectsAux_error (pages : List (Except String (List Project)))
    (pg : Except String (List Project)) (e : String)
    (hmem : pg ∈ pages) (hpg : pg = .error e) :
    ∀ acc, ∃ eMsg, listProjectsAux acc pages = .error eMsg := by
  induction pages with
  | nil => cases hmem
  | cons hd rest ih =>
    intro acc
    cases hd with
    | error e2 => exact ⟨"could not list projects: " ++ e2, rfl⟩
    | ok ps =>
      have hr : pg ∈ rest := by
        cases List.mem_cons.mp hmem with
        | inl hh => rw [hpg] at hh; cases hh
        | inr hh => exact hh
      exact ih hr _

/-! ### The cache file (`openCache` / `saveCache`)

`encoding/json` is external to the repository, so the file is modelled
at the JSON-value level: the repository's own contribution is the shape
of the persisted value (an object mapping project ids to arrays of
ancestor-id strings) and the error policy around `os.Open`, `os.Create`,
`Decode` and `Encode`.  The decoder follows `encoding/json` faithfully:
a missing file, an empty file (`io.EOF`) or a syntax error leaves the
freshly allocated empty map untouched (`Decode` scans a syntactically
complete value before unmarshalling, main.go line 192), but inside a
well-formed value an `UnmarshalTypeError` is only *saved*: decoding
continues, the offending value or array element is left at its zero
value (nil slice, empty string), the map entry is still set, and the
saved error is returned at the end alongside the partially populated
map.  So an error from a well-formed object comes with a non-empty,
partially decoded mapping, not with the empty one.  Each decoding
function therefore returns its value together with an
error-was-saved flag.
-/

/-- A JSON value; `other` stands for the shapes the cache never uses
(numbers, booleans, null). -/
inductive Json where
  | str (s : String)
  | arr (xs : List Json)
  | obj (fields : List (String × Json))
  | other

/-- What the bytes of the cache file hold. -/
inductive FileContent where
  | absent
  | empty
  | garbage
  | json (j : Json)

/-- `json.NewEncoder(f).Encode(&cache)` (main.go line 211): a JSON
object mapping each project id to the array of its ancestor ids. -/
def encodeCache (cache : Cache) : Json :=
  .obj (cache.map (fun kv => (kv.1, .arr (kv.2.map .str))))

/-- Decoding one element of an ancestor array into a Go `string`: a
non-string saves an `UnmarshalTypeError` and leaves the zero value. -/
def decodeStringItem : Json → String × Bool
  | .str s => (s, false)
  | .arr _ => ("", true)
  | .obj _ => ("", true)
  | .other => ("", true)

/-- Decoding the elements of one ancestor array: wrong-typed elements
stay at their zero value and set the saved-error flag. -/
def decodeStrings : List Json → List String × Bool
  | [] => ([], false)
  | x :: rest =>
    match decodeStringItem x, decodeStrings rest with
    | (s, e1), (l, e2) => (s :: l, e1 || e2)

/-- Decoding one cached chain into a Go `[]string`: a non-array saves an
`UnmarshalTypeError`, is skipped, and leaves the nil slice. -/
def decodeChain : Json → Chain × Bool
  | .arr xs => decodeStrings xs
  | .str _ => ([], true)
  | .obj _ => ([], true)
  | .other => ([], true)

/-- Decoding the object fields into the `map[string][]string`: every
key's entry is set (with whatever its value decoded to), and any saved
error is carried along. -/
def decodeEntries : List (String × Json) → Cache × Bool
  | [] => ([], false)
  | (k, v) :: rest =>
    match decodeChain v, decodeEntries rest with
    | (c, e1), (m, e2) => ((k, c) :: m, e1 || e2)

/-- `json.NewDecoder(f).Decode(&c)` (main.go line 200): a well-formed
value that is not an object saves an `UnmarshalTypeError` and leaves
the map empty; an object is decoded field by field. -/
def decodeCacheJson : Json → Cache × Bool
  | .obj fields => decodeEntries fields
  | .str _ => ([], true)
  | .arr _ => ([], true)
  | .other => ([], true)

/-- `openCache` (main.go lines 191-202): start from the empty map; if
`os.Open` fails or the value cannot even be scanned, return that empty
map together with the wrapped error; otherwise return whatever the
decode produced — the partially populated map when an error was saved —
together with the error, if any. -/
def openCache (f : FileContent) : Cache × Option String :=
  match f with
  | .absent => ([], some "could not open cache file")
  | .empty => ([], some "could not decode cache")
  | .garbage => ([], some "could not decode cache")
  | .json j =>
    match decodeCacheJson j with
    | (c, true) => (c, some "could not decode cache")
    | (c, false) => (c, none)

/-- Result of `saveCache`: the file's new content and the returned error. -/
structure SaveResult where
  file : FileContent
  err : Option String

/-- `saveCache` (main.go lines 204-213): `os.Create` truncates the file
first; only then does the encoder write.  If `Create` fails the old
content survives and an error is returned; if the write fails the file
is left truncated (modelled as `empty`); on success the file holds the
encoded mapping. -/
def saveCache (createOk writeOk : Bool) (cache : Cache) (old : FileContent) : SaveResult :=
  if createOk then
    if writeOk then ⟨.json (encodeCache cache), none⟩
    else ⟨.empty, some "could not encode cache"⟩
  else ⟨old, some "could not create cache file"⟩

theorem decodeStrings_map_str (l : List String) :
    decodeStrings (l.map Json.str) = (l, false) := by
  induction l with
  | nil => rfl
  | cons s rest ih => simp [decodeStrings, decodeStringItem, ih]

theorem decodeEntries_encode (cache : Cache) :
    decodeEntries (cache.map (fun kv => (kv.1, Json.arr (kv.2.map Json.str)))) =
      (cache, false) := by
  induction cache with
  | nil => rfl
  | cons kv rest ih =>
    obtain ⟨k, v⟩ := kv
    simp [decodeEntries, decodeChain, decodeStrings_map_str, ih]

theorem decode_encode_cache (cache : Cache) :
    decodeCacheJson (encodeCache cache) = (cache, false) := by
  simp [decodeCacheJson, encodeCache, decodeEntries_encode]

/-- A project is in the filtered list iff the target id occurs in the
chain it was matched against. -/
theorem resolveAll_ok_mem (getAncestry : String → Except String Chain)
    (projects : List String) (parentResourceID p : String) (cache0 : Cache)
    (res : ResolveState) (hp : p ∈ projects)
    (hres : resolveAll getAncestry projects parentResourceID cache0 = .ok res) :
    p ∈ res.filtered ↔ parentResourceID ∈ effChain getAncestry cache0 p := by
  have hcount := resolveAll_ok_count getAncestry projects parentResourceID cache0 res p hres
  constructor
  · intro hmem
    by_contra hnot
    have hz : (effChain getAncestry cache0 p).count parentResourceID = 0 :=
      List.count_eq_zero.mpr hnot
    have hpos := List.count_pos_iff.mpr hmem
    rw [hcount, hz, Nat.mul_zero] at hpos
    exact Nat.lt_irrefl 0 hpos
  · intro hmemC
    refine List.count_pos_iff.mp ?_
    rw [hcount]
    exact Nat.mul_pos (List.count_pos_iff.mpr hp) (List.count_pos_iff.mpr hmemC)

/-! ### The claims -/

/-- C1: a project `p` with a cached chain `C` is resolved without any
remote ancestry query, and lands in the filtered list iff the target
ancestor id is an element of `C`. -/
theorem cachedProject_noRemote_matchIff (getAncestry : String → Except String Chain)
    (pages : List (Except String (List Project))) (parentResourceID p : String)
    (cache0 : Cache) (projects : List String) (C : Chain) (res : ResolveState)
    (hlp : listProjects pages = .ok projects) (hp : p ∈ projects)
    (hc : cacheLookup cache0 p = some C)
    (hres : findChildProjects getAncestry pages parentResourceID cache0 = .ok res) :
    p ∉ res.queried ∧ (p ∈ res.filtered ↔ parentResourceID ∈ C) := by
  rw [findChildProjects_eq _ _ _ _ _ hlp] at hres
  refine ⟨(resolveAll_ok_cache_hit _ _ _ _ _ _ _ hc hres).2, ?_⟩
  have heff : effChain getAncestry cache0 p = C := by simp [effChain, hc]
  rw [← heff]
  exact resolveAll_ok_mem _ _ _ _ _ _ hp hres

theorem cachedProject_noRemote_matchIff_witness :
    "a" ∉ ([] : List String) ∧
      ("a" ∈ (["a"] : List String) ↔ "org1" ∈ (["org1"] : List String)) :=
  cachedProject_noRemote_matchIff (fun _ => .error "no remote")
    [Except.ok [⟨"a"⟩]] "org1" "a" [("a", ["org1"])] ["a"] ["org1"]
    ⟨["a"], [("a", ["org1"])], []⟩ rfl (by decide) rfl rfl

/-- C2: a project `p` with no cache entry whose remote query returns `S`
ends up cached with exactly `S` (also when `S` is empty), and is in the
filtered list iff the target ancestor id is an element of `S`. -/
theorem missedProject_cachedVerbatim_matchIff (getAncestry : String → Except String Chain)
    (pages : List (Except String (List Project))) (parentResourceID p : String)
    (cache0 : Cache) (projects : List String) (S : Chain) (res : ResolveState)
    (hlp : listProjects pages = .ok projects) (hp : p ∈ projects)
    (hc : cacheLookup cache0 p = none) (hg : getAncestry p = .ok S)
    (hres : findChildProjects getAncestry pages parentResourceID cache0 = .ok res) :
    cacheLookup res.cache p = some S ∧ (p ∈ res.filtered ↔ parentResourceID ∈ S) := by
  rw [findChildProjects_eq _ _ _ _ _ hlp] at hres
  obtain ⟨s, hgs, hlook⟩ := resolveAll_ok_cache_miss _ _ _ _ _ _ hp hc hres
  rw [hg] at hgs
  cases hgs
  refine ⟨hlook, ?_⟩
  have heff : effChain getAncestry cache0 p = S := by
    simp [effChain, fetchedChain, hc, hg]
  rw [← heff]
  exact resolveAll_ok_mem _ _ _ _ _ _ hp hres

theorem missedProject_cachedVerbatim_matchIff_witness :
    cacheLookup [("a", ([] : Chain))] "a" = some [] ∧
      ("a" ∈ ([] : List String) ↔ "org1" ∈ ([] : List String)) :=
  missedProject_cachedVerbatim_matchIff (fun _ => .ok [])
    [Except.ok [⟨"a"⟩]] "org1" "a" [] ["a"] []
    ⟨[], [("a", [])], ["a"]⟩ rfl (by decide) rfl rfl rfl

/-- C3: if the remote ancestry query fails for a listed, uncached
project, `findChildProjects` returns an error and no filtered list. -/
theorem ancestryFailure_aborts (getAncestry : String → Except String Chain)
    (pages : List (Except String (List Project))) (parentResourceID p e : String)
    (cache0 : Cache) (projects : List String)
    (hlp : listProjects pages = .ok projects) (hp : p ∈ projects)
    (hc : cacheLookup cache0 p = none) (hg : getAncestry p = .error e) :
    ∃ eMsg, findChildProjects getAncestry pages parentResourceID cache0 = .error eMsg := by
  obtain ⟨eMsg, hm⟩ := resolveAll_error _ _ _ _ _ _ hp hc hg
  refine ⟨eMsg, ?_⟩
  rw [findChildProjects_eq _ _ _ _ _ hlp]
  exact hm

theorem ancestryFailure_aborts_witness :
    ∃ eMsg, findChildProjects (fun _ => .error "boom")
      [Except.ok [⟨"a"⟩, ⟨"b"⟩]] "org1" [("b", ["org1"])] = .error eMsg :=
  ancestryFailure_aborts (fun _ => .error "boom")
    [Except.ok [⟨"a"⟩, ⟨"b"⟩]] "org1" "a" "boom" [("b", ["org1"])] ["a", "b"]
    rfl (by decide) rfl rfl

/-- C4, counterexample: a cache file holding a well-formed object that
maps `"a"` to `["x"]` and `"b"` to the number 5 makes the decode fail
(an `UnmarshalTypeError` is saved for `"b"`), yet `openCache` returns a
non-empty, partially populated mapping in which `"a"` is a cache hit —
not the empty mapping the claim promises on any decode failure. -/
theorem openCache_partialDecode_nonempty :
    (openCache (FileContent.json (Json.obj
        [("a", Json.arr [Json.str "x"]), ("b", Json.other)]))).2.isSome = true ∧
      (openCache (FileContent.json (Json.obj
        [("a", Json.arr [Json.str "x"]), ("b", Json.other)]))).1 =
        [("a", ["x"]), ("b", [])] ∧
      cacheLookup (openCache (FileContent.json (Json.obj
        [("a", Json.arr [Json.str "x"]), ("b", Json.other)]))).1 "a" = some ["x"] :=
  ⟨rfl, rfl, rfl⟩

/-- C4 (amended): whenever `openCache` reports an error it still returns
a usable mapping, never aborting the run.  On an I/O failure, an empty
file or a syntactically corrupt file the mapping is empty — a cache miss
for every project — while on a decode failure inside a well-formed JSON
value it is the partially populated mapping the field-by-field decode
produced. -/
theorem openCache_failure_behavior (f : FileContent) (p : String)
    (h : (openCache f).2.isSome) :
    ((openCache f).1 = [] ∧ cacheLookup (openCache f).1 p = none) ∨
      ∃ fields, f = FileContent.json (Json.obj fields) ∧
        (openCache f).1 = (decodeEntries fields).1 ∧
        (decodeEntries fields).2 = true := by
  cases f with
  | absent => exact Or.inl ⟨rfl, rfl⟩
  | empty => exact Or.inl ⟨rfl, rfl⟩
  | garbage => exact Or.inl ⟨rfl, rfl⟩
  | json j =>
    cases j with
    | str s => exact Or.inl ⟨rfl, rfl⟩
    | arr xs => exact Or.inl ⟨rfl, rfl⟩
    | other => exact Or.inl ⟨rfl, rfl⟩
    | obj fields =>
      cases hd : decodeEntries fields with
      | mk c flag =>
        cases flag with
        | true =>
          refine Or.inr ⟨fields, rfl, ?_, ?_⟩
          · simp [openCache, decodeCacheJson, hd]
          · simp [hd]
        | false =>
          exfalso
          simp [openCache, decodeCacheJson, hd] at h

theorem openCache_failure_behavior_witness :
    ((openCache FileContent.absent).1 = [] ∧
        cacheLookup (openCache FileContent.absent).1 "a" = none) ∨
      ∃ fields, FileContent.absent = FileContent.json (Json.obj fields) ∧
        (openCache FileContent.absent).1 = (decodeEntries fields).1 ∧
        (decodeEntries fields).2 = true :=
  openCache_failure_behavior FileContent.absent "a" rfl

/-- C5: a target id equal to a project's own identifier never makes the
project match; only the elements of its ancestor chain are tested. -/
theorem ownId_neverMatches (getAncestry : String → Except String Chain)
    (pages : List (Except String (List Project))) (p : String)
    (cache0 : Cache) (projects : List String) (res : ResolveState)
    (hlp : listProjects pages = .ok projects) (hp : p ∈ projects)
    (hchain : p ∉ effChain getAncestry cache0 p)
    (hres : findChildProjects getAncestry pages p cache0 = .ok res) :
    p ∉ res.filtered := by
  rw [findChildProjects_eq _ _ _ _ _ hlp] at hres
  intro hmem
  exact hchain ((resolveAll_ok_mem _ _ _ _ _ _ hp hres).mp hmem)

theorem ownId_neverMatches_witness : "a" ∉ ([] : List String) :=
  ownId_neverMatches (fun _ => .ok []) [Except.ok [⟨"a"⟩]] "a"
    [("a", ["org1"])] ["a"] ⟨[], [("a", ["org1"])], []⟩
    rfl (by decide) (by decide) rfl

/-- C6: a cache entry present when `findChildProjects` starts is intact
when it returns, and no remote query was issued for that project. -/
theorem cacheEntry_immutable (getAncestry : String → Except String Chain)
    (pages : List (Except String (List Project))) (parentResourceID p : String)
    (cache0 : Cache) (projects : List String) (C : Chain) (res : ResolveState)
    (hlp : listProjects pages = .ok projects)
    (hc : cacheLookup cache0 p = some C)
    (hres : findChildProjects getAncestry pages parentResourceID cache0 = .ok res) :
    cacheLookup res.cache p = some C ∧ p ∉ res.queried := by
  rw [findChildProjects_eq _ _ _ _ _ hlp] at hres
  exact resolveAll_ok_cache_hit _ _ _ _ _ _ _ hc hres

theorem cacheEntry_immutable_witness :
    cacheLookup [("b", ["f1"]), ("a", ["org1"])] "b" = some ["f1"] ∧
      "b" ∉ (["a"] : List String) :=
  cacheEntry_immutable (fun _ => .ok ["org1"]) [Except.ok [⟨"a"⟩]] "org1" "b"
    [("b", ["f1"])] ["a"] ["f1"] ⟨["a"], [("b", ["f1"]), ("a", ["org1"])], ["a"]⟩
    rfl rfl rfl

/-- C7: `listProjects` follows all pages and returns every visible
project id when every page succeeds, and returns an error (discarding
already-collected pages) when any page fails. -/
theorem listProjects_allOrNothing (pages : List (Except String (List Project))) :
    ((∀ pg ∈ pages, ∃ ps, pg = .ok ps) →
      listProjects pages = .ok ((pages.map pageIds).flatten)) ∧
    ((∃ pg ∈ pages, ∃ e, pg = .error e) →
      ∃ eMsg, listProjects pages = .error eMsg) := by
  constructor
  · intro hok
    have h := listProjectsAux_ok pages hok []
    simpa [listProjects] using h
  · rintro ⟨pg, hmem, e, hpg⟩
    exact listProjectsAux_error pages pg e hmem hpg []

theorem listProjects_allOrNothing_witness :
    listProjects [Except.ok [⟨"a"⟩], Except.ok [⟨"b"⟩]] = .ok ["a", "b"] ∧
      ∃ eMsg, listProjects [Except.ok [⟨"a"⟩], Except.error "net"] = .error eMsg := by
  constructor
  · refine (listProjects_allOrNothing [Except.ok [⟨"a"⟩], Except.ok [⟨"b"⟩]]).1 ?_
    intro pg hmem
    rcases List.mem_cons.mp hmem with h | hmem2
    · exact ⟨_, h⟩
    · rcases List.mem_cons.mp hmem2 with h | hmem3
      · exact ⟨_, h⟩
      · exact absurd hmem3 (List.not_mem_nil _)
  · exact (listProjects_allOrNothing [Except.ok [⟨"a"⟩], Except.error "net"]).2
      ⟨Except.error "net", List.mem_cons_of_mem _ (List.mem_cons_self _ _), "net", rfl⟩

/-- C8: saving a cache mapping and loading the resulting file
reproduces the identical mapping (and no error). -/
theorem saveCache_openCache_roundtrip (cache : Cache) (old : FileContent) :
    openCache (saveCache true true cache old).file = (cache, none) := by
  simp [saveCache, openCache, decode_encode_cache]

/-- C9: a project listed once whose effective chain contains the target
id `k` times is appended `k` times to the filtered list, so the result
can hold duplicate project identifiers. -/
theorem duplicateTarget_appendsK (getAncestry : String → Except String Chain)
    (pages : List (Except String (List Project))) (parentResourceID p : String)
    (cache0 : Cache) (projects : List String) (res : ResolveState) (k : Nat)
    (hlp : listProjects pages = .ok projects)
    (hcnt : projects.count p = 1)
    (hk : (effChain getAncestry cache0 p).count parentResourceID = k)
    (hres : findChildProjects getAncestry pages parentResourceID cache0 = .ok res) :
    res.filtered.count p = k := by
  rw [findChildProjects_eq _ _ _ _ _ hlp] at hres
  rw [resolveAll_ok_count _ _ _ _ _ p hres, hcnt, hk, Nat.one_mul]

theorem duplicateTarget_appendsK_witness :
    (["a", "a"] : List String).count "a" = 2 :=
  duplicateTarget_appendsK (fun _ => .ok []) [Except.ok [⟨"a"⟩]] "org1" "a"
    [("a", ["org1", "f", "org1"])] ["a"] ⟨["a", "a"], [("a", ["org1", "f", "org1"])], []⟩ 2
    rfl (by decide) (by decide) rfl

/-- C10: `saveCache` truncates the file before encoding, so a failed
encode leaves the file truncated — the previous contents are destroyed,
not restored — while still reporting the error. -/
theorem saveCache_encodeFailure_truncates (cache : Cache) (old : FileContent) :
    (saveCache true false cache old).file = FileContent.empty ∧
      (saveCache true false cache old).err = some "could not encode cache" ∧
      (openCache (saveCache true false cache old).file).1 = [] :=
  ⟨rfl, rfl, rfl⟩

end OrgKubectl
